import Mathlib

/-
Verification development for the distributed COPY engine of
tsl/src/remote/dist_copy.c: a shallow embedding of its row batching,
partition routing, connection caching, multiplexed flush/finalize and
row encoding logic, with theorems settling the specified properties.
-/

/-! ### Batch accumulation (remote_distributed_copy / read_next_copy_row) -/

/-- MAX_BATCH_ROWS from dist_copy.c: maximum number of rows in a batch. -/
def MAX_BATCH_ROWS : Nat := 1024

/-- MAX_BATCH_BYTES from dist_copy.c: maximum bytes of COPY data in a batch. -/
def MAX_BATCH_BYTES : Nat := 10 * 1024 * 1024

/--
The batch accumulation loop of remote_distributed_copy, abstracted over the
encoded byte length of each incoming row.  Each iteration reads one row
(read_next_copy_row appends it to the batch and adds its length to
current_batch_bytes); the loop continues accumulating while the row was read
(not eof) and current_batch_rows < MAX_BATCH_ROWS and
current_batch_bytes < MAX_BATCH_BYTES, otherwise it sends the current batch
and resets the counters.  On eof, the current batch is sent as-is (it can be
empty).  The result is the list of batches handed to the send phase, each
batch being the list of its rows' byte lengths.
-/
def copy_batches : List Nat → List Nat → List (List Nat)
  | [], cur => [cur]
  | r :: rest, cur =>
    let cur2 := cur ++ [r]
    if cur2.length < MAX_BATCH_ROWS ∧ cur2.sum < MAX_BATCH_BYTES then
      copy_batches rest cur2
    else
      cur2 :: copy_batches rest []

theorem dropLast_sum_le (l : List Nat) : l.dropLast.sum ≤ l.sum := by
  induction l with
  | nil => simp
  | cons x xs ih =>
    cases xs with
    | nil => simp
    | cons y ys =>
      simp only [List.dropLast_cons₂, List.sum_cons]
      exact Nat.add_le_add_left ih x

theorem copy_batches_ne_nil (src cur : List Nat) : copy_batches src cur ≠ [] := by
  cases src with
  | nil => simp [copy_batches]
  | cons r rest =>
    simp only [copy_batches]
    split
    · exact copy_batches_ne_nil rest (cur ++ [r])
    · simp

theorem copy_batches_bounds (src : List Nat) :
    ∀ cur, cur.length < MAX_BATCH_ROWS → cur.sum < MAX_BATCH_BYTES →
      ∀ b ∈ copy_batches src cur,
        b.length ≤ MAX_BATCH_ROWS ∧ b.dropLast.sum < MAX_BATCH_BYTES := by
  induction src with
  | nil =>
    intro cur hlen hsum b hb
    simp only [copy_batches, List.mem_singleton] at hb
    subst hb
    exact ⟨Nat.le_of_lt hlen, Nat.lt_of_le_of_lt (dropLast_sum_le b) hsum⟩
  | cons r rest ih =>
    intro cur hlen hsum b hb
    simp only [copy_batches] at hb
    split at hb
    · rename_i hcond
      have h2 : (cur ++ [r]).length < MAX_BATCH_ROWS := hcond.1
      exact ih (cur ++ [r]) h2 hcond.2 b hb
    · rename_i hcond
      rcases List.mem_cons.mp hb with rfl | hb2
      · constructor
        · simpa using hlen
        · simpa [List.dropLast_concat] using hsum
      · exact ih [] (by simp [MAX_BATCH_ROWS]) (by simp [MAX_BATCH_BYTES]) b hb2

theorem copy_batches_full (src : List Nat) :
    ∀ cur, ∀ b ∈ (copy_batches src cur).dropLast,
      MAX_BATCH_ROWS ≤ b.length ∨ MAX_BATCH_BYTES ≤ b.sum := by
  induction src with
  | nil =>
    intro cur b hb
    simp [copy_batches] at hb
  | cons r rest ih =>
    intro cur b hb
    simp only [copy_batches] at hb
    split at hb
    · exact ih (cur ++ [r]) b hb
    · rename_i hcond
      have hne := copy_batches_ne_nil rest []
      obtain ⟨x, xs, hx⟩ := List.exists_cons_of_ne_nil hne
      rw [hx, List.dropLast_cons₂, List.mem_cons] at hb
      rcases hb with rfl | hb2
      · rcases Decidable.not_and_iff_or_not.mp hcond with h | h
        · exact Or.inl (Nat.le_of_not_lt h)
        · exact Or.inr (Nat.le_of_not_lt h)
      · exact ih [] b (hx ▸ hb2)

/--
C1 (amended): for every input source, every batch handed to the send phase
has at most MAX_BATCH_ROWS = 1024 rows, and its accumulated encoded byte
size exceeds MAX_BATCH_BYTES = 10 MiB by at most the size of its last row
(the bytes of all rows but the last stay below 10 MiB); every batch except
the final one reached one of the two bounds, whichever came first.  (The
original claim, that the byte size never exceeds 10 MiB, fails: the byte
threshold is only checked after a row has been appended.)
-/
theorem C1_batch_bounds (src : List Nat) :
    (∀ b ∈ copy_batches src [],
        b.length ≤ MAX_BATCH_ROWS ∧ b.dropLast.sum < MAX_BATCH_BYTES) ∧
    (∀ b ∈ (copy_batches src []).dropLast,
        MAX_BATCH_ROWS ≤ b.length ∨ MAX_BATCH_BYTES ≤ b.sum) :=
  ⟨copy_batches_bounds src []
      (by simp [MAX_BATCH_ROWS]) (by simp [MAX_BATCH_BYTES]),
    copy_batches_full src []⟩

/--
C1 witness: a one-row source of 5 bytes yields the single batch [5], which
satisfies both amended bounds.
-/
theorem C1_batch_bounds_witness :
    ([5] : List Nat).length ≤ MAX_BATCH_ROWS ∧
      ([5] : List Nat).dropLast.sum < MAX_BATCH_BYTES :=
  (C1_batch_bounds [5]).1 [5] (by decide)

/--
C1 counterexample: with a source of three rows of 6 MiB, 6 MiB and 5 bytes,
the first batch handed to the send phase holds the two 6 MiB rows, for a
total of 12 MiB of encoded bytes, exceeding the 10 MiB bound even though it
is not the final batch at source exhaustion.
-/
theorem C1_counterexample :
    copy_batches [6291456, 6291456, 5] [] = [[6291456, 6291456], [5]] ∧
      MAX_BATCH_BYTES < ([6291456, 6291456] : List Nat).sum := by
  exact ⟨by decide, by decide⟩

/-! ### Coalesced flush during chunk creation (remote_copy_process_and_send_data) -/

/-- Events of the per-row routing loop of remote_copy_process_and_send_data:
a flush of the active data node connections, or the creation of a new chunk
for a partition point. -/
inductive PassEvent
  | flush
  | createChunk (p : Nat)
  deriving DecidableEq, Repr

/--
The per-row chunk resolution loop of remote_copy_process_and_send_data,
restricted to the events it emits.  For each batch point, the chunk is looked
up (ts_hypertable_find_chunk_for_point, abstracted into the arbitrary
predicate found over the list of chunks created so far plus those already
existing); on a miss, the active connections are flushed first unless the
did_flush flag is already set, the flag is set, and the chunk is created
(ts_hypertable_create_chunk_for_point, which adds it to the existing set).
-/
def process_batch_points (found : Nat → List Nat → Bool) :
    List Nat → List Nat → Bool → List PassEvent
  | [], _, _ => []
  | p :: rest, existing, did_flush =>
    if found p existing then
      process_batch_points found rest existing did_flush
    else
      (if did_flush then [] else [PassEvent.flush]) ++
        (PassEvent.createChunk p ::
          process_batch_points found rest (p :: existing) true)

theorem process_batch_points_no_flush (found : Nat → List Nat → Bool) :
    ∀ points existing,
      (process_batch_points found points existing true).count PassEvent.flush = 0 := by
  intro points
  induction points with
  | nil => intro existing; simp [process_batch_points]
  | cons p rest ih =>
    intro existing
    simp only [process_batch_points]
    split
    · exact ih existing
    · simp [List.count_cons, ih (p :: existing)]

theorem process_batch_points_shape (found : Nat → List Nat → Bool) :
    ∀ points existing,
      process_batch_points found points existing false = [] ∨
        ∃ rest, process_batch_points found points existing false =
            PassEvent.flush :: rest ∧ rest.count PassEvent.flush = 0 := by
  intro points
  induction points with
  | nil => intro existing; exact Or.inl rfl
  | cons p rest ih =>
    intro existing
    simp only [process_batch_points]
    split
    · exact ih existing
    · refine Or.inr ⟨PassEvent.createChunk p ::
        process_batch_points found rest (p :: existing) true, by simp, ?_⟩
      simp [List.count_cons, process_batch_points_no_flush found rest (p :: existing)]

/--
C2: within one batch-processing pass of remote_copy_process_and_send_data
(started with did_flush = false), the flush of active connections triggered
by a row whose chunk does not exist yet runs at most once, no matter how
many new chunks the pass creates, and it runs before the first chunk
creation of the pass: any decomposition of the pass's event trace that
exhibits a createChunk event has a flush event strictly before it.
-/
theorem C2_coalesced_flush (found : Nat → List Nat → Bool)
    (points existing : List Nat) :
    (process_batch_points found points existing false).count PassEvent.flush ≤ 1 ∧
    (∀ pre p post,
      process_batch_points found points existing false =
          pre ++ PassEvent.createChunk p :: post →
        PassEvent.flush ∈ pre) := by
  rcases process_batch_points_shape found points existing with h | ⟨rest, h, hc⟩
  · rw [h]
    constructor
    · simp
    · intro pre p post habs
      exact absurd habs.symm (List.append_ne_nil_of_right_ne_nil pre (by simp))
  · rw [h]
    constructor
    · simp [List.count_cons, hc]
    · intro pre p post heq
      cases pre with
      | nil => simp at heq
      | cons x xs =>
        have hx : x = PassEvent.flush := by
          have := congrArg (fun l => l.head?) heq
          simpa using this.symm
        rw [hx]
        exact List.mem_cons_self PassEvent.flush xs

/--
C2 witness: a pass over the single point 7 with no chunks existing and no
prior flush emits the trace [flush, createChunk 7]; the decomposition with
pre = [flush] shows the flush precedes the chunk creation.
-/
theorem C2_coalesced_flush_witness :
    PassEvent.flush ∈ [PassEvent.flush] :=
  (C2_coalesced_flush (fun p existing => existing.contains p) [7] []).2
    [PassEvent.flush] 7 [] (by decide)

/-! ### Multiplexed flush verification (flush_active_connections, steps 3 and 4) -/

/-- Result statuses a PQgetResult call can report in this model. -/
inductive PGresStatus
  | commandOk
  | copyIn
  | fatalError
  | tuplesOk
  deriving DecidableEq, Repr

/-- One connection of the to_end_copy set after the drain phase of
flush_active_connections: the sequence of results that successive
PQgetResult calls will return before returning NULL. -/
structure FlushedConn where
  results : List PGresStatus
  deriving DecidableEq, Repr

/--
Step 4 of flush_active_connections ("Verify the EndCopy result"): for each
connection of to_end_copy in order, PQgetResult must return a result (NULL
is an error), its status must be PGRES_COMMAND_OK (anything else is an
error), and a second PQgetResult must return NULL (a further result is an
error); the first failing connection aborts with an error.
-/
def verify_end_copy : List FlushedConn → Except String Unit
  | [] => Except.ok ()
  | c :: rest =>
    match c.results with
    | [] => Except.error ("unexpected NULL result when ending remote COPY")
    | r :: more =>
      if r ≠ PGresStatus.commandOk then
        Except.error ("error result when ending remote COPY")
      else
        match more with
        | [] => verify_end_copy rest
        | _ :: _ => Except.error ("unexpected non-NULL result when ending remote COPY")

/-- Events of the flush/finalize sequence on the to_end_copy set. -/
inductive FlushEvent
  | drained (i : Nat)
  | restoredBlocking (i : Nat)
  | verified (i : Nat)
  | raisedError
  deriving DecidableEq, Repr

/-- The verification loop's event trace: each connection that passes the
three checks is verified in order; the first failing one raises. -/
def verify_trace : List FlushedConn → Nat → List FlushEvent
  | [], _ => []
  | c :: rest, i =>
    if c.results = [PGresStatus.commandOk] then
      FlushEvent.verified i :: verify_trace rest (i + 1)
    else
      [FlushEvent.raisedError]

/--
The phase structure of flush_active_connections: the non-blocking drain loop
runs until every connection of to_end_copy has flushed its write buffer and
delivered its response (it only exits when to_flush_next is empty); then
every connection is restored to idle, blocking mode; only then does the
verification loop run, raising on the first bad terminal result.
-/
def flush_finalize_trace (conns : List FlushedConn) : List FlushEvent :=
  ((List.range conns.length).map FlushEvent.drained) ++
    (((List.range conns.length).map FlushEvent.restoredBlocking) ++
      verify_trace conns 0)

theorem verify_end_copy_ok_iff (conns : List FlushedConn) :
    verify_end_copy conns = Except.ok () ↔
      ∀ c ∈ conns, c.results = [PGresStatus.commandOk] := by
  induction conns with
  | nil => simp [verify_end_copy]
  | cons c rest ih =>
    simp only [verify_end_copy]
    cases hres : c.results with
    | nil => simp [hres]
    | cons r more =>
      by_cases hr : r = PGresStatus.commandOk
      · cases more with
        | nil => simp [hres, hr, ih]
        | cons m ms => simp [hres, hr]
      · simp [hres, hr]

theorem raised_mem_verify_trace :
    ∀ (conns : List FlushedConn) (i : Nat), (∃ c ∈ conns, c.results ≠ [PGresStatus.commandOk]) →
      FlushEvent.raisedError ∈ verify_trace conns i := by
  intro conns
  induction conns with
  | nil => intro i h; simp at h
  | cons c rest ih =>
    intro i h
    simp only [verify_trace]
    by_cases hc : c.results = [PGresStatus.commandOk]
    · rcases h with ⟨d, hd, hdne⟩
      rcases List.mem_cons.mp hd with rfl | hd2
      · exact absurd hc hdne
      · simp only [if_pos hc, List.mem_cons]
        exact Or.inr (ih (i + 1) ⟨d, hd2, hdne⟩)
    · simp [if_neg hc]

/--
C3: after the drain phase of flush_active_connections, the terminal result
of each connection in the to_end_copy set must be exactly one successful
command acknowledgement followed by no further pending result — the
verification succeeds if and only if every connection's pending results are
[PGRES_COMMAND_OK]; any other outcome (missing result, error result, or an
extra result) makes the finalize fail, and that failure is raised only in
the verification phase, after the drain phase has completed for every
connection in the set.
-/
theorem C3_finalize_verify (conns : List FlushedConn) :
    (verify_end_copy conns = Except.ok () ↔
      ∀ c ∈ conns, c.results = [PGresStatus.commandOk]) ∧
    (verify_end_copy conns ≠ Except.ok () →
      ∃ tail, flush_finalize_trace conns =
          ((List.range conns.length).map FlushEvent.drained) ++ tail ∧
        FlushEvent.raisedError ∈ tail) := by
  refine ⟨verify_end_copy_ok_iff conns, ?_⟩
  intro herr
  refine ⟨((List.range conns.length).map FlushEvent.restoredBlocking) ++
    verify_trace conns 0, rfl, ?_⟩
  have hex : ∃ c ∈ conns, c.results ≠ [PGresStatus.commandOk] := by
    by_contra habs
    push_neg at habs
    exact herr ((verify_end_copy_ok_iff conns).mpr habs)
  exact List.mem_append_right _ (raised_mem_verify_trace conns 0 hex)

/--
C3 witness: with a first connection acknowledging correctly and a second
returning an error result, the finalize fails, all connections having been
drained before the error is raised.
-/
theorem C3_finalize_verify_witness :
    ∃ tail,
      flush_finalize_trace [⟨[PGresStatus.commandOk]⟩, ⟨[PGresStatus.fatalError]⟩] =
        ((List.range 2).map FlushEvent.drained) ++ tail ∧
      FlushEvent.raisedError ∈ tail :=
  (C3_finalize_verify [⟨[PGresStatus.commandOk]⟩, ⟨[PGresStatus.fatalError]⟩]).2
    (fun h => Except.noConfusion h)

/-! ### Connection cache and upload channel lifecycle
(create_connection_list_for_chunk, remote_copy_process_and_send_data,
flush_active_connections) -/

/-- Connection statuses used by dist_copy.c: CONN_IDLE, CONN_COPY_IN and
CONN_PROCESSING. -/
inductive TSConnStatus
  | idle
  | copyIn
  | processing
  deriving DecidableEq, Repr

/-- Observable channel operations of one load: issuing the remote COPY
begin command (remote_connection_begin_copy), pushing row bytes
(PQputCopyData), and ending the COPY sub-protocol during a flush
(PQputCopyEnd + drain, which leaves the connection CONN_IDLE). -/
inductive LoadEvent
  | beginCopy (conn : Nat)
  | putCopyData (conn : Nat)
  | flushEndCopy (conn : Nat)
  deriving DecidableEq, Repr

/-- CopyConnectionState from dist_copy.c: the per-load connection cache
(data_node_connections maps a (server_id, user_id) identity to a connection,
here a numeric instance id indexing into statuses) and the list of
connections with unfinalized COPY data (connections_in_use). -/
structure CopyConnectionState where
  data_node_connections : List (Nat × Nat × Nat)
  statuses : List TSConnStatus
  connections_in_use : List Nat
  deriving DecidableEq, Repr

/-- The cached-connection scan performed by both
create_connection_list_for_chunk and remote_copy_process_and_send_data:
linear search of data_node_connections for a matching
(server_id, user_id). -/
def lookup_connection : List (Nat × Nat × Nat) → Nat → Nat → Option Nat
  | [], _, _ => none
  | (sid, uid, c) :: rest, s, u =>
    if sid = s ∧ uid = u then some c else lookup_connection rest s u

/-- Cache miss handling: remote_dist_txn_get_connection opens a fresh
connection (a new instance id, initially CONN_IDLE) and the entry is
appended to data_node_connections; a hit returns the cached instance. -/
def get_or_create_connection (st : CopyConnectionState) (sid uid : Nat) :
    CopyConnectionState × Nat :=
  match lookup_connection st.data_node_connections sid uid with
  | some c => (st, c)
  | none =>
    let c := st.statuses.length
    ({ st with
        data_node_connections := st.data_node_connections ++ [(sid, uid, c)],
        statuses := st.statuses ++ [TSConnStatus.idle] }, c)

/-- remote_connection_get_status of a connection instance. -/
def conn_status (st : CopyConnectionState) (c : Nat) : TSConnStatus :=
  st.statuses.getD c TSConnStatus.idle

/-- The status dispatch of remote_copy_process_and_send_data before row
bytes are pushed: CONN_IDLE issues the COPY begin command, moves the
connection to CONN_COPY_IN and records it in connections_in_use (guarding
against duplicates); CONN_COPY_IN is ready to use; any other status
(CONN_PROCESSING) is a fatal error. -/
def begin_copy_if_needed (st : CopyConnectionState) (c : Nat) :
    Except String (CopyConnectionState × List LoadEvent) :=
  match conn_status st c with
  | TSConnStatus.idle =>
    let st1 := { st with statuses := st.statuses.set c TSConnStatus.copyIn }
    let st2 :=
      if st1.connections_in_use.contains c then st1
      else { st1 with connections_in_use := st1.connections_in_use ++ [c] }
    Except.ok (st2, [LoadEvent.beginCopy c])
  | TSConnStatus.copyIn => Except.ok (st, [])
  | TSConnStatus.processing =>
    Except.error ("wrong status for connection to data node when performing distributed COPY")

/-- The connection-opening loop of remote_copy_process_and_send_data: for
each data node of the batch (in order), obtain its connection through the
cache and begin COPY on it if needed; returns the connections in node
order together with the emitted events. -/
def open_pass_connections (uid : Nat) :
    CopyConnectionState → List Nat →
      Except String (CopyConnectionState × List Nat × List LoadEvent)
  | st, [] => Except.ok (st, [], [])
  | st, sid :: rest =>
    let sc := get_or_create_connection st sid uid
    match begin_copy_if_needed sc.1 sc.2 with
    | Except.error e => Except.error e
    | Except.ok (st2, evs1) =>
      match open_pass_connections uid st2 rest with
      | Except.error e => Except.error e
      | Except.ok (st3, conns, evs2) => Except.ok (st3, sc.2 :: conns, evs1 ++ evs2)

/-- One send phase of remote_copy_process_and_send_data: open/begin the
connection of every destination node, then push one contiguous buffer of
row bytes to each (PQputCopyData). -/
def run_send_pass (st : CopyConnectionState) (uid : Nat) (nodes : List Nat) :
    Except String (CopyConnectionState × List LoadEvent) :=
  match open_pass_connections uid st nodes with
  | Except.error e => Except.error e
  | Except.ok (st1, conns, evs) =>
    Except.ok (st1, evs ++ conns.map LoadEvent.putCopyData)

/-- Net effect of flush_active_connections on channel state: every
connection in connections_in_use that is CONN_COPY_IN gets its COPY
sub-protocol ended and is left CONN_IDLE (connections in other statuses are
skipped; connections_in_use itself is not cleared). -/
def flush_active_statuses (st : CopyConnectionState) :
    CopyConnectionState × List LoadEvent :=
  st.connections_in_use.foldl
    (fun acc c =>
      if conn_status acc.1 c = TSConnStatus.copyIn then
        ({ acc.1 with statuses := acc.1.statuses.set c TSConnStatus.idle },
          acc.2 ++ [LoadEvent.flushEndCopy c])
      else acc)
    (st, [])

/-- One batch-processing pass at the connection level: if some row required
a new chunk, the active connections are flushed first (§ the coalesced
flush), then the batch is sent. -/
def run_batch_pass (st : CopyConnectionState) (needs_new_chunk : Bool)
    (nodes : List Nat) (uid : Nat) :
    Except String (CopyConnectionState × List LoadEvent) :=
  let fl := if needs_new_chunk then flush_active_statuses st else (st, [])
  match run_send_pass fl.1 uid nodes with
  | Except.error e => Except.error e
  | Except.ok (st2, evs2) => Except.ok (st2, fl.2 ++ evs2)

/-- A whole load at the connection level: a sequence of batch passes, each
described by whether it discovered a new chunk and by the data nodes its
rows are destined to. -/
def run_load (uid : Nat) :
    CopyConnectionState → List (Bool × List Nat) →
      Except String (CopyConnectionState × List LoadEvent)
  | st, [] => Except.ok (st, [])
  | st, (f, nodes) :: rest =>
    match run_batch_pass st f nodes uid with
    | Except.error e => Except.error e
    | Except.ok (st1, evs1) =>
      match run_load uid st1 rest with
      | Except.error e => Except.error e
      | Except.ok (st2, evs2) => Except.ok (st2, evs1 ++ evs2)

/-- The connection state at the start of a load (remote_copy_begin):
empty cache, no statuses, no active connections. -/
def init_copy_connection_state : CopyConnectionState := ⟨[], [], []⟩

theorem getD_set_self {α : Type} (l : List α) (i : Nat) (a d : α)
    (h : i < l.length) : (l.set i a).getD i d = a := by
  induction l generalizing i with
  | nil => simp at h
  | cons x xs ih =>
    cases i with
    | zero => rfl
    | succ j => exact ih j (Nat.lt_of_succ_lt_succ h)

theorem getD_set_ne {α : Type} (l : List α) (i j : Nat) (a d : α)
    (h : j ≠ i) : (l.set i a).getD j d = l.getD j d := by
  induction l generalizing i j with
  | nil => rfl
  | cons x xs ih =>
    cases i with
    | zero =>
      cases j with
      | zero => exact absurd rfl h
      | succ k => rfl
    | succ m =>
      cases j with
      | zero => rfl
      | succ k => exact ih m k (fun hk => h (by rw [hk]))

theorem getD_append_default {α : Type} (l : List α) (n : Nat) (d : α) :
    (l ++ [d]).getD n d = l.getD n d := by
  induction l generalizing n with
  | nil => cases n with
    | zero => rfl
    | succ m => cases m <;> rfl
  | cons x xs ih =>
    cases n with
    | zero => rfl
    | succ m => exact ih m

/-- Well-formedness of the connection cache: every cached connection
instance id indexes into the statuses table. -/
def ConnStateWF (st : CopyConnectionState) : Prop :=
  ∀ e ∈ st.data_node_connections, e.2.2 < st.statuses.length

theorem lookup_connection_mem (l : List (Nat × Nat × Nat)) (s u c : Nat) :
    lookup_connection l s u = some c → ∃ e ∈ l, e.2.2 = c := by
  induction l with
  | nil => intro h; exact absurd h (by simp [lookup_connection])
  | cons e rest ih =>
    intro h
    obtain ⟨sid, uid, c0⟩ := e
    simp only [lookup_connection] at h
    split at h
    · exact ⟨(sid, uid, c0), List.mem_cons_self _ _, by simpa using h⟩
    · obtain ⟨e2, he2, hc2⟩ := ih h
      exact ⟨e2, List.mem_cons_of_mem _ he2, hc2⟩

theorem lookup_connection_append_none (l : List (Nat × Nat × Nat)) (s u c' : Nat)
    (h : lookup_connection l s u = none) :
    lookup_connection (l ++ [(s, u, c')]) s u = some c' := by
  induction l with
  | nil => simp [lookup_connection]
  | cons e rest ih =>
    obtain ⟨sid, uid, c0⟩ := e
    simp only [lookup_connection] at h ⊢
    split at h
    · exact absurd h (by simp)
    · rename_i hne
      rw [if_neg hne]
      exact ih h

theorem get_or_create_connection_status (st : CopyConnectionState)
    (sid uid c' : Nat) :
    conn_status (get_or_create_connection st sid uid).1 c' = conn_status st c' := by
  unfold get_or_create_connection
  cases h : lookup_connection st.data_node_connections sid uid with
  | some c => rfl
  | none => exact getD_append_default st.statuses c' TSConnStatus.idle

theorem get_or_create_connection_lt (st : CopyConnectionState) (sid uid : Nat)
    (hwf : ConnStateWF st) :
    (get_or_create_connection st sid uid).2 <
      (get_or_create_connection st sid uid).1.statuses.length := by
  unfold get_or_create_connection
  cases h : lookup_connection st.data_node_connections sid uid with
  | some c =>
    obtain ⟨e, he, hc⟩ := lookup_connection_mem _ _ _ _ h
    exact hc ▸ hwf e he
  | none => simp

theorem get_or_create_connection_wf (st : CopyConnectionState) (sid uid : Nat)
    (hwf : ConnStateWF st) :
    ConnStateWF (get_or_create_connection st sid uid).1 := by
  unfold get_or_create_connection
  cases h : lookup_connection st.data_node_connections sid uid with
  | some c => exact hwf
  | none =>
    intro e he
    simp only [List.length_append, List.length_cons, List.length_nil]
    rcases List.mem_append.mp he with h1 | h2
    · exact Nat.lt_succ_of_lt (hwf e h1)
    · simp only [List.mem_singleton] at h2
      subst h2
      simp

theorem get_or_create_connection_statuses_le (st : CopyConnectionState)
    (sid uid : Nat) :
    st.statuses.length ≤ (get_or_create_connection st sid uid).1.statuses.length := by
  unfold get_or_create_connection
  cases h : lookup_connection st.data_node_connections sid uid with
  | some c => exact Nat.le_refl _
  | none => simp

theorem begin_copy_if_needed_cases (st : CopyConnectionState) (c : Nat)
    (st' : CopyConnectionState) (evs : List LoadEvent)
    (hlt : c < st.statuses.length)
    (h : begin_copy_if_needed st c = Except.ok (st', evs)) :
    st'.data_node_connections = st.data_node_connections ∧
    st'.statuses.length = st.statuses.length ∧
    ((conn_status st c = TSConnStatus.idle ∧ evs = [LoadEvent.beginCopy c] ∧
        conn_status st' c = TSConnStatus.copyIn ∧
        (∀ c', c' ≠ c → conn_status st' c' = conn_status st c')) ∨
      (conn_status st c = TSConnStatus.copyIn ∧ evs = [] ∧ st' = st)) := by
  unfold begin_copy_if_needed at h
  cases hst : conn_status st c with
  | idle =>
    rw [hst] at h
    simp only at h
    split at h <;>
    · obtain ⟨h1, h2⟩ := Prod.mk.injEq .. ▸ Except.ok.injEq .. ▸ h
      subst h2
      refine ⟨by rw [← h1], by rw [← h1]; simp, Or.inl ⟨rfl, rfl, ?_, ?_⟩⟩
      · show conn_status st' c = _
        rw [← h1]
        exact getD_set_self st.statuses c TSConnStatus.copyIn TSConnStatus.idle hlt
      · intro c' hne
        show conn_status st' c' = _
        rw [← h1]
        exact getD_set_ne st.statuses c c' TSConnStatus.copyIn TSConnStatus.idle hne
  | copyIn =>
    rw [hst] at h
    simp only [Except.ok.injEq, Prod.mk.injEq] at h
    exact ⟨by rw [← h.1], by rw [← h.1], Or.inr ⟨rfl, h.2.symm, h.1.symm⟩⟩
  | processing =>
    rw [hst] at h
    exact absurd h (by simp)

theorem open_pass_connections_inv (uid : Nat) :
    ∀ (nodes : List Nat) (st st' : CopyConnectionState) (conns : List Nat)
      (evs : List LoadEvent), ConnStateWF st →
      open_pass_connections uid st nodes = Except.ok (st', conns, evs) →
      ConnStateWF st' ∧
      (∀ c, conn_status st c = TSConnStatus.copyIn →
        conn_status st' c = TSConnStatus.copyIn) ∧
      (∀ c, conn_status st c = TSConnStatus.copyIn →
        evs.count (LoadEvent.beginCopy c) = 0) ∧
      (∀ c, evs.count (LoadEvent.beginCopy c) ≤ 1) ∧
      (∀ c, 1 ≤ evs.count (LoadEvent.beginCopy c) →
        conn_status st' c = TSConnStatus.copyIn) ∧
      (∀ c ∈ conns, conn_status st' c = TSConnStatus.copyIn) := by
  intro nodes
  induction nodes with
  | nil =>
    intro st st' conns evs hwf h
    simp only [open_pass_connections, Except.ok.injEq, Prod.mk.injEq] at h
    obtain ⟨h1, h2, h3⟩ := h
    subst h1
    subst h2
    subst h3
    exact ⟨hwf, fun c hc => hc, fun c _ => rfl, fun c => Nat.zero_le 1,
      fun c hc => absurd hc (by simp), fun c hc => absurd hc (by simp)⟩
  | cons sid rest ih =>
    intro st st' conns evs hwf h
    simp only [open_pass_connections] at h
    cases hb : begin_copy_if_needed (get_or_create_connection st sid uid).1
        (get_or_create_connection st sid uid).2 with
    | error e =>
      rw [hb] at h
      exact absurd h (by simp)
    | ok p =>
      obtain ⟨st2, evs1⟩ := p
      rw [hb] at h
      dsimp only at h
      cases ho : open_pass_connections uid st2 rest with
      | error e =>
        rw [ho] at h
        exact absurd h (by simp)
      | ok q =>
        obtain ⟨st3, conns2, evs2⟩ := q
        rw [ho] at h
        simp only [Except.ok.injEq, Prod.mk.injEq] at h
        obtain ⟨h1, h2, h3⟩ := h
        subst h1
        subst h2
        subst h3
        have hwf1 : ConnStateWF (get_or_create_connection st sid uid).1 :=
          get_or_create_connection_wf st sid uid hwf
        have hlt : (get_or_create_connection st sid uid).2 <
            (get_or_create_connection st sid uid).1.statuses.length :=
          get_or_create_connection_lt st sid uid hwf
        have hstat : ∀ c', conn_status (get_or_create_connection st sid uid).1 c' =
            conn_status st c' :=
          fun c' => get_or_create_connection_status st sid uid c'
        obtain ⟨hdnc, hlen, hcase⟩ :=
          begin_copy_if_needed_cases (get_or_create_connection st sid uid).1
            (get_or_create_connection st sid uid).2 st2 evs1 hlt hb
        have hwf2 : ConnStateWF st2 := by
          intro e he
          rw [hdnc] at he
          rw [hlen]
          exact hwf1 e he
        obtain ⟨hwf3, P2, Q2, R2, S2, M2⟩ := ih st2 st3 conns2 evs2 hwf2 ho
        have hstat2 : ∀ c, conn_status st c = TSConnStatus.copyIn →
            conn_status st2 c = TSConnStatus.copyIn := by
          intro c hc
          rcases hcase with ⟨hidle, hev1, hc0, hother⟩ | ⟨hcopy, hev1, hsteq⟩
          · by_cases hcc : c = (get_or_create_connection st sid uid).2
            · subst hcc
              exact hc0
            · rw [hother c hcc, hstat c]
              exact hc
          · rw [hsteq, hstat c]
            exact hc
        have hcount1_zero : ∀ c, conn_status st c = TSConnStatus.copyIn →
            evs1.count (LoadEvent.beginCopy c) = 0 := by
          intro c hc
          rcases hcase with ⟨hidle, hev1, _, _⟩ | ⟨_, hev1, _⟩
          · subst hev1
            by_cases hcc : c = (get_or_create_connection st sid uid).2
            · subst hcc
              rw [hstat _] at hidle
              rw [hc] at hidle
              exact absurd hidle (by simp)
            · simp [List.count_cons]
              intro habs
              exact absurd habs.symm hcc
          · subst hev1
            rfl
        refine ⟨hwf3, ?_, ?_, ?_, ?_, ?_⟩
        · intro c hc
          exact P2 c (hstat2 c hc)
        · intro c hc
          rw [List.count_append, hcount1_zero c hc, Q2 c (hstat2 c hc)]
        · intro c
          rw [List.count_append]
          rcases hcase with ⟨hidle, hev1, hc0, hother⟩ | ⟨hcopy, hev1, hsteq⟩
          · by_cases hcc : c = (get_or_create_connection st sid uid).2
            · subst hcc
              have h1 : evs1.count
                  (LoadEvent.beginCopy (get_or_create_connection st sid uid).2) = 1 := by
                subst hev1
                simp
              rw [h1, Q2 _ hc0]
            · have h0 : evs1.count (LoadEvent.beginCopy c) = 0 := by
                subst hev1
                simp [List.count_cons]
                intro habs
                exact absurd habs.symm hcc
              rw [h0]
              simpa using R2 c
          · subst hev1
            simpa using R2 c
        · intro c hc
          rw [List.count_append] at hc
          rcases hcase with ⟨hidle, hev1, hc0, hother⟩ | ⟨hcopy, hev1, hsteq⟩
          · by_cases hcc : c = (get_or_create_connection st sid uid).2
            · subst hcc
              exact P2 _ hc0
            · have h0 : evs1.count (LoadEvent.beginCopy c) = 0 := by
                subst hev1
                simp [List.count_cons]
                intro habs
                exact absurd habs.symm hcc
              rw [h0] at hc
              exact S2 c (by simpa using hc)
          · subst hev1
            exact S2 c (by simpa using hc)
        · intro c hc
          rcases List.mem_cons.mp hc with rfl | hc2
          · rcases hcase with ⟨hidle, hev1, hc0, hother⟩ | ⟨hcopy, hev1, hsteq⟩
            · exact P2 _ hc0
            · refine P2 _ ?_
              rw [hsteq]
              exact hcopy
          · exact M2 c hc2

theorem get_or_create_connection_idem (st : CopyConnectionState) (sid uid : Nat) :
    get_or_create_connection (get_or_create_connection st sid uid).1 sid uid =
      ((get_or_create_connection st sid uid).1,
        (get_or_create_connection st sid uid).2) := by
  cases h : lookup_connection st.data_node_connections sid uid with
  | some c =>
    have h1 : get_or_create_connection st sid uid = (st, c) := by
      unfold get_or_create_connection
      rw [h]
    rw [h1]
    unfold get_or_create_connection
    rw [h]
  | none =>
    have h1 : get_or_create_connection st sid uid =
        ({ st with
            data_node_connections :=
              st.data_node_connections ++ [(sid, uid, st.statuses.length)],
            statuses := st.statuses ++ [TSConnStatus.idle] },
          st.statuses.length) := by
      unfold get_or_create_connection
      rw [h]
    rw [h1]
    unfold get_or_create_connection
    rw [lookup_connection_append_none st.data_node_connections sid uid _ h]

theorem count_putCopyData_begin_zero (conns : List Nat) (c : Nat) :
    (conns.map LoadEvent.putCopyData).count (LoadEvent.beginCopy c) = 0 := by
  rw [List.count_eq_zero]
  intro habs
  obtain ⟨x, _, hx⟩ := List.mem_map.mp habs
  exact LoadEvent.noConfusion hx

/--
C4 (amended): repeated requests for the same (node, principal) identity
within one load return the same cached channel instance (the cache never
opens a duplicate); and the upload-start command is issued at most once per
channel per batch-processing pass — it is issued exactly when the channel is
idle, so a channel is restarted after a flush has returned it to idle.
(The original claim, exactly one upload-start per channel over the whole
load, fails: flush_active_connections leaves flushed channels CONN_IDLE,
and the next pass begins COPY on them again.)
-/
theorem C4_connection_cache (st : CopyConnectionState) (sid uid : Nat) :
    (get_or_create_connection (get_or_create_connection st sid uid).1 sid uid =
      ((get_or_create_connection st sid uid).1,
        (get_or_create_connection st sid uid).2)) ∧
    (∀ nodes st' evs, ConnStateWF st →
      run_send_pass st uid nodes = Except.ok (st', evs) →
      ∀ c, evs.count (LoadEvent.beginCopy c) ≤ 1) := by
  refine ⟨get_or_create_connection_idem st sid uid, ?_⟩
  intro nodes st' evs hwf h
  unfold run_send_pass at h
  cases ho : open_pass_connections uid st nodes with
  | error e =>
    rw [ho] at h
    exact absurd h (by simp)
  | ok q =>
    obtain ⟨st1, conns, evs1⟩ := q
    rw [ho] at h
    simp only [Except.ok.injEq, Prod.mk.injEq] at h
    obtain ⟨h1, h2⟩ := h
    subst h2
    intro c
    rw [List.count_append, count_putCopyData_begin_zero]
    have hr := (open_pass_connections_inv uid nodes st st1 conns evs1 hwf ho).2.2.2.1 c
    simpa using hr

/--
C4 witness: a single pass over node 0 starting from the empty connection
state issues the begin-COPY command exactly once on the fresh channel.
-/
theorem C4_connection_cache_witness :
    ([LoadEvent.beginCopy 0, LoadEvent.putCopyData 0] : List LoadEvent).count
      (LoadEvent.beginCopy 0) ≤ 1 :=
  (C4_connection_cache init_copy_connection_state 0 0).2 [0]
    ⟨[(0, 0, 0)], [TSConnStatus.copyIn], [0]⟩
    [LoadEvent.beginCopy 0, LoadEvent.putCopyData 0]
    (fun e he => absurd he (List.not_mem_nil e)) rfl 0

/--
C4 counterexample: a load of two batch passes to node 0, the second of
which needs a new chunk (forcing a flush of the active connections), issues
the upload-start command twice on the same cached channel instance 0 — the
claim's "exactly one upload-start command per channel per load" fails,
although the second pass does reuse the same cached channel rather than
opening a second one.
-/
theorem C4_counterexample :
    run_load 0 init_copy_connection_state [(true, [0]), (true, [0])] =
      Except.ok (⟨[(0, 0, 0)], [TSConnStatus.copyIn], [0]⟩,
        [LoadEvent.beginCopy 0, LoadEvent.putCopyData 0, LoadEvent.flushEndCopy 0,
          LoadEvent.beginCopy 0, LoadEvent.putCopyData 0]) ∧
    ([LoadEvent.beginCopy 0, LoadEvent.putCopyData 0, LoadEvent.flushEndCopy 0,
        LoadEvent.beginCopy 0, LoadEvent.putCopyData 0] : List LoadEvent).count
        (LoadEvent.beginCopy 0) = 2 :=
  ⟨rfl, by decide⟩

/--
C9: a channel observed CONN_PROCESSING when row bytes are about to be sent
makes the load fail with the fatal wrong-status error; a successful
begin_copy_if_needed implies the channel was not CONN_PROCESSING and leaves
it CONN_COPY_IN; and after the connection-opening loop of a send pass, every
channel about to receive row bytes (the connections returned in node order,
to which PQputCopyData is applied) is in CONN_COPY_IN state — row bytes are
pushed only on channels that were idle (and had the upload started) or were
already uploading.
-/
theorem C9_processing_fatal :
    (∀ st c, conn_status st c = TSConnStatus.processing →
      begin_copy_if_needed st c = Except.error
        ("wrong status for connection to data node when performing distributed COPY")) ∧
    (∀ st c st' evs, c < st.statuses.length →
      begin_copy_if_needed st c = Except.ok (st', evs) →
      conn_status st c ≠ TSConnStatus.processing ∧
        conn_status st' c = TSConnStatus.copyIn) ∧
    (∀ uid st nodes st' conns evs, ConnStateWF st →
      open_pass_connections uid st nodes = Except.ok (st', conns, evs) →
      ∀ c ∈ conns, conn_status st' c = TSConnStatus.copyIn) := by
  refine ⟨?_, ?_, ?_⟩
  · intro st c h
    unfold begin_copy_if_needed
    rw [h]
  · intro st c st' evs hlt h
    obtain ⟨_, _, hcase⟩ := begin_copy_if_needed_cases st c st' evs hlt h
    rcases hcase with ⟨hidle, _, hc, _⟩ | ⟨hcopy, _, hsteq⟩
    · refine ⟨?_, hc⟩
      rw [hidle]
      simp
    · refine ⟨?_, ?_⟩
      · rw [hcopy]
        simp
      · rw [hsteq]
        exact hcopy
  · intro uid st nodes st' conns evs hwf h
    exact (open_pass_connections_inv uid nodes st st' conns evs hwf h).2.2.2.2.2

/--
C9 witness: beginning COPY on an idle channel succeeds, and leaves the
channel uploading (CONN_COPY_IN), not processing.
-/
theorem C9_processing_fatal_witness :
    conn_status ⟨[], [TSConnStatus.idle], []⟩ 0 ≠ TSConnStatus.processing ∧
      conn_status ⟨[], [TSConnStatus.copyIn], [0]⟩ 0 = TSConnStatus.copyIn :=
  C9_processing_fatal.2.1 ⟨[], [TSConnStatus.idle], []⟩ 0
    ⟨[], [TSConnStatus.copyIn], [0]⟩ [LoadEvent.beginCopy 0] (by decide) rfl

/-! ### Binary row encoding (generate_binary_copy_data) -/

/-- pg_hton16: the two bytes of a 16-bit value in network (big-endian)
byte order, as laid out in memory and appended by appendBinaryStringInfo. -/
def pg_hton16 (x : Nat) : List Nat := [x / 2 ^ 8 % 256, x % 256]

/-- pg_hton32: the four bytes of a 32-bit value in network (big-endian)
byte order. -/
def pg_hton32 (x : Nat) : List Nat :=
  [x / 2 ^ 24 % 256, x / 2 ^ 16 % 256, x / 2 ^ 8 % 256, x % 256]

/--
generate_binary_copy_data from dist_copy.c: emit the 2-byte network-order
field count pg_hton16(attnums->length), then iterate the selected columns
in attnums order, indexing values/nulls by table column offset
(AttrNumberGetAttrOffset, i.e. attnum - 1); a null column contributes the
4-byte length pg_hton32((uint32) -1) and nothing else, a non-null column
contributes the 4-byte length of its binary-encoded value followed by those
bytes (the SendFunctionCall output is abstracted as the precomputed byte
list values[offset]).  The row buffer grows by appendBinaryStringInfo,
i.e. by appending to an accumulator.
-/
def generate_binary_copy_data (values : List (List Nat)) (nulls : List Bool)
    (attnums : List Nat) : List Nat :=
  attnums.foldl
    (fun row_data attnum =>
      let offset := attnum - 1
      if nulls.getD offset false then
        row_data ++ pg_hton32 (2 ^ 32 - 1)
      else
        row_data ++ pg_hton32 (values.getD offset []).length ++ values.getD offset [])
    (pg_hton16 attnums.length)

/--
The binary row format as the spec words it: a 2-byte network-byte-order
field count equal to the number of selected columns, then for each selected
column in column-selection order a 4-byte network-byte-order length
followed by that many bytes of the value, where a null column is the length
0xFFFFFFFF with no value bytes.
-/
def binary_row_encoding_spec (values : List (List Nat)) (nulls : List Bool)
    (attnums : List Nat) : List Nat :=
  pg_hton16 attnums.length ++
    (attnums.map (fun attnum =>
      if nulls.getD (attnum - 1) false then
        pg_hton32 (2 ^ 32 - 1)
      else
        pg_hton32 (values.getD (attnum - 1) []).length ++
          values.getD (attnum - 1) [])).flatten

theorem foldl_append_eq_flatten {α β : Type} (g : α → List β) :
    ∀ (l : List α) (init : List β),
      l.foldl (fun acc a => acc ++ g a) init = init ++ (l.map g).flatten := by
  intro l
  induction l with
  | nil => intro init; simp
  | cons a rest ih =>
    intro init
    simp only [List.foldl_cons, List.map_cons, List.flatten_cons]
    rw [ih, List.append_assoc]

/--
C5: in binary mode the encoding of one row is exactly the 2-byte
network-order count of selected columns followed, for each selected column
in column-selection (attnums) order, by a 4-byte network-order length and
the value bytes, a null column being encoded as the length 0xFFFFFFFF
(bytes FF FF FF FF) with no value bytes; concretely, two selected columns
whose second is null encode to 00 02, then 00 00 00 04 and the four value
bytes, then FF FF FF FF.
-/
theorem C5_binary_row_encoding (values : List (List Nat)) (nulls : List Bool)
    (attnums : List Nat) :
    generate_binary_copy_data values nulls attnums =
      binary_row_encoding_spec values nulls attnums ∧
    pg_hton32 (2 ^ 32 - 1) = [255, 255, 255, 255] ∧
    (pg_hton16 attnums.length).length = 2 ∧
    generate_binary_copy_data [[10, 11, 12, 13], []] [false, true] [1, 2] =
      [0, 2, 0, 0, 0, 4, 10, 11, 12, 13, 255, 255, 255, 255] := by
  refine ⟨?_, by decide, rfl, by decide⟩
  unfold generate_binary_copy_data binary_row_encoding_spec
  have hfun : (fun (row_data : List Nat) (attnum : Nat) =>
      let offset := attnum - 1
      if nulls.getD offset false then
        row_data ++ pg_hton32 (2 ^ 32 - 1)
      else
        row_data ++ pg_hton32 (values.getD offset []).length ++
          values.getD offset []) =
      fun row_data attnum => row_data ++
        (if nulls.getD (attnum - 1) false then
          pg_hton32 (2 ^ 32 - 1)
        else
          pg_hton32 (values.getD (attnum - 1) []).length ++
            values.getD (attnum - 1) []) := by
    funext r a
    dsimp only
    by_cases h : nulls.getD (a - 1) false
    · rw [if_pos h, if_pos h]
    · rw [if_neg h, if_neg h, List.append_assoc]
  rw [hfun, foldl_append_eq_flatten]

/-! ### Text row encoding and option validation
(parse_next_text_row, validate_options) -/

/-- DEFAULT_PG_DELIMITER from dist_copy.c: horizontal tab. -/
def DEFAULT_PG_DELIMITER : Char := '\t'

/-- DEFAULT_PG_NULL_VALUE from dist_copy.c: backslash-N. -/
def DEFAULT_PG_NULL_VALUE : String := "\\N"

/-- The COPY options validate_options inspects: the format option, the
delimiter option (a single character), the null-marker option, and any
other option (ignored by validate_options). -/
inductive CopyOptionM
  | format (fmt : String)
  | delimiter (d : Char)
  | nullMarker (s : String)
  | otherOption (opname : String)
  deriving DecidableEq, Repr

/--
The option loop of validate_options from dist_copy.c, carrying the
delimiter, the null string and the delimiter_found flag: format binary is
rejected; format csv switches the delimiter to comma only if no delimiter
option was seen yet; a delimiter option overrides the delimiter and sets
delimiter_found; a null option overrides the null string.
-/
def validate_options_loop :
    List CopyOptionM → Char → String → Bool → Except String (Char × String)
  | [], delim, null_string, _ => Except.ok (delim, null_string)
  | CopyOptionM.format fmt :: rest, delim, null_string, delimiter_found =>
    if fmt = "binary" then
      Except.error ("remote copy does not support binary data")
    else if fmt = "csv" ∧ delimiter_found = false then
      validate_options_loop rest ',' null_string delimiter_found
    else
      validate_options_loop rest delim null_string delimiter_found
  | CopyOptionM.delimiter d :: rest, _, null_string, _ =>
    validate_options_loop rest d null_string true
  | CopyOptionM.nullMarker s :: rest, delim, _, delimiter_found =>
    validate_options_loop rest delim s delimiter_found
  | CopyOptionM.otherOption _ :: rest, delim, null_string, delimiter_found =>
    validate_options_loop rest delim null_string delimiter_found

/-- validate_options from dist_copy.c: start from the Postgres defaults and
fold over the options. -/
def validate_options (copy_options : List CopyOptionM) :
    Except String (Char × String) :=
  validate_options_loop copy_options DEFAULT_PG_DELIMITER DEFAULT_PG_NULL_VALUE
    false

/-- The per-field expression of parse_next_text_row: the field's text, or
the null string when the field pointer is NULL. -/
def field_or_null (f : Option String) (null_string : String) : String :=
  f.getD null_string

/--
parse_next_text_row's row serialization from dist_copy.c: each of the first
nfields - 1 fields (or the null string) followed by the delimiter, then the
last field (or the null string) followed by a newline.  (The C code indexes
fields[0 .. nfields-1] and always emits the final field; the empty-fields
case cannot arise because nfields equals the number of selected columns.)
-/
def parse_next_text_row : List (Option String) → Char → String → String
  | [], _, _ => ""
  | [f], _, null_string => field_or_null f null_string ++ "\n"
  | f :: rest, delim, null_string =>
    field_or_null f null_string ++ String.singleton delim ++
      parse_next_text_row rest delim null_string

/-- A list of strings joined by a separator, as the spec words it. -/
def joined_by (sep : String) : List String → String
  | [] => ""
  | [x] => x
  | x :: xs => x ++ sep ++ joined_by sep xs

/-- The text row format as the spec words it: each selected column's
textual value (or the null marker when the field is absent) joined by the
delimiter and terminated by a newline. -/
def text_row_encoding_spec (fields : List (Option String)) (delim : Char)
    (null_string : String) : String :=
  joined_by (String.singleton delim)
    (fields.map (fun f => field_or_null f null_string)) ++ "\n"

theorem joined_by_cons₂ (sep x y : String) (ys : List String) :
    joined_by sep (x :: y :: ys) = x ++ sep ++ joined_by sep (y :: ys) := rfl

theorem parse_next_text_row_eq (delim : Char) (null_string : String) :
    ∀ (f : Option String) (rest : List (Option String)),
      parse_next_text_row (f :: rest) delim null_string =
        text_row_encoding_spec (f :: rest) delim null_string := by
  intro f rest
  induction rest generalizing f with
  | nil => rfl
  | cons g rest ih =>
    show field_or_null f null_string ++ String.singleton delim ++
        parse_next_text_row (g :: rest) delim null_string = _
    rw [ih g]
    unfold text_row_encoding_spec
    simp only [List.map_cons, joined_by_cons₂, String.append_assoc]

/--
C6: in text mode one row encodes as each selected column's textual value
(or the configured null marker when the field is absent) joined by the
configured delimiter and terminated by a newline; validate_options derives
the delimiter and null marker once from the options: the delimiter defaults
to horizontal tab and the null marker to backslash-N, the csv format option
switches the delimiter to comma only when no explicit delimiter option is
given (in either option order), and an explicit delimiter or null option
overrides the default.
-/
theorem C6_text_row_encoding :
    (∀ (fields : List (Option String)) (delim : Char) (null_string : String),
      fields ≠ [] →
      parse_next_text_row fields delim null_string =
        text_row_encoding_spec fields delim null_string) ∧
    validate_options [] = Except.ok (DEFAULT_PG_DELIMITER, DEFAULT_PG_NULL_VALUE) ∧
    DEFAULT_PG_DELIMITER = '\t' ∧
    DEFAULT_PG_NULL_VALUE = "\\N" ∧
    validate_options [CopyOptionM.format ("csv")] =
      Except.ok (',', DEFAULT_PG_NULL_VALUE) ∧
    (∀ d, validate_options [CopyOptionM.delimiter d] =
      Except.ok (d, DEFAULT_PG_NULL_VALUE)) ∧
    (∀ d, validate_options [CopyOptionM.format ("csv"), CopyOptionM.delimiter d] =
      Except.ok (d, DEFAULT_PG_NULL_VALUE)) ∧
    (∀ d, validate_options [CopyOptionM.delimiter d, CopyOptionM.format ("csv")] =
      Except.ok (d, DEFAULT_PG_NULL_VALUE)) ∧
    (∀ s, validate_options [CopyOptionM.nullMarker s] =
      Except.ok (DEFAULT_PG_DELIMITER, s)) := by
  refine ⟨?_, rfl, rfl, rfl, rfl, fun d => rfl, fun d => rfl, fun d => rfl,
    fun s => rfl⟩
  intro fields delim null_string hne
  cases fields with
  | nil => exact absurd rfl hne
  | cons f rest => exact parse_next_text_row_eq delim null_string f rest

/--
C6 witness (Scenario A): in text mode with comma delimiter and the default
null marker, the row with fields 1, null, x over three selected columns
encodes to the exact byte string 1 comma backslash-N comma x newline.
-/
theorem C6_text_row_encoding_witness :
    parse_next_text_row [some ("1"), none, some ("x")] ',' ("\\N") =
      "1,\\N,x\n" := by
  have h := C6_text_row_encoding.1 [some ("1"), none, some ("x")] ',' ("\\N")
    (by simp)
  rw [h]
  rfl

/-! ### Per-node row grouping and the send pass
(remote_copy_process_and_send_data) -/

/-- DataNodeRows from dist_copy.c: the batch row indices destined for one
data node, in the order the routing loop appended them. -/
structure DataNodeRows where
  server_oid : Nat
  row_indices : List Nat
  deriving DecidableEq, Repr

/-- The inner scan of the routing loop of remote_copy_process_and_send_data:
find the DataNodeRows entry with this chunk data node's server oid, creating
one at the end of the data_nodes list if absent, and append the row's batch
index to its row_indices. -/
def add_row_to_node : List DataNodeRows → Nat → Nat → List DataNodeRows
  | [], i, node => [⟨node, [i]⟩]
  | dn :: rest, i, node =>
    if dn.server_oid = node then
      ⟨dn.server_oid, dn.row_indices ++ [i]⟩ :: rest
    else
      dn :: add_row_to_node rest i node

/-- One row's routing: append its batch index to the entry of every data
node holding the row's chunk (the foreach over chunk->data_nodes). -/
def add_row_to_nodes (dns : List DataNodeRows) (i : Nat) (nodes : List Nat) :
    List DataNodeRows :=
  nodes.foldl (fun acc node => add_row_to_node acc i node) dns

/-- The routing phase over the whole batch: rows are processed in batch
order, row_in_batch counting up from the given index. -/
def route_batch_rows : List (List Nat) → Nat → List DataNodeRows → List DataNodeRows
  | [], _, dns => dns
  | ds :: rest, i, dns => route_batch_rows rest (i + 1) (add_row_to_nodes dns i ds)

/-- The copy_data buffer built for one data node in the send loop: the
concatenation of the batch rows at its recorded indices, pushed as one
PQputCopyData call. -/
def node_copy_buffer (batch_rows : List (List Nat)) (dn : DataNodeRows) : List Nat :=
  (dn.row_indices.map (fun i => batch_rows.getD i [])).flatten

/-- One send pass: route the batch (dests gives each row's destination node
set, parallel to batch_rows), then emit per data node (in first-appearance
order) the single contiguous buffer sent to its connection. -/
def send_pass (batch_rows : List (List Nat)) (dests : List (List Nat)) :
    List (Nat × List Nat) :=
  (route_batch_rows dests 0 []).map
    (fun dn => (dn.server_oid, node_copy_buffer batch_rows dn))

/-- The spec-side description: the encoded rows destined for node v, in
source order. -/
def node_rows_in_source_order (batch_rows : List (List Nat))
    (dests : List (List Nat)) (v : Nat) : List (List Nat) :=
  ((batch_rows.zip dests).filter (fun p => decide (v ∈ p.2))).map Prod.fst

/-- Lookup of a node's recorded row indices in the data_nodes list. -/
def find_node_rows : List DataNodeRows → Nat → Option (List Nat)
  | [], _ => none
  | dn :: rest, v =>
    if dn.server_oid = v then some dn.row_indices else find_node_rows rest v

/-- The batch indices of the rows destined for node v, starting at batch
index i. -/
def dest_indices : List (List Nat) → Nat → Nat → List Nat
  | [], _, _ => []
  | ds :: rest, i, v =>
    (if v ∈ ds then [i] else []) ++ dest_indices rest (i + 1) v

theorem find_add_row_to_node (i node v : Nat) :
    ∀ dns : List DataNodeRows,
      find_node_rows (add_row_to_node dns i node) v =
        if v = node then some ((find_node_rows dns v).getD [] ++ [i])
        else find_node_rows dns v := by
  intro dns
  induction dns with
  | nil =>
    by_cases h : v = node
    · subst h
      simp [add_row_to_node, find_node_rows]
    · simp only [add_row_to_node, find_node_rows, if_neg h]
      rw [if_neg (fun habs : node = v => h habs.symm)]
  | cons dn rest ih =>
    by_cases hdn : dn.server_oid = node
    · simp only [add_row_to_node, if_pos hdn]
      by_cases hv : v = node
      · subst hv
        simp [find_node_rows, hdn]
      · have hnv : ¬dn.server_oid = v := fun habs => hv (by rw [← habs, hdn])
        simp [find_node_rows, hnv, hv]
    · simp only [add_row_to_node, if_neg hdn]
      by_cases hv : dn.server_oid = v
      · have hvn : ¬v = node := fun habs => hdn (by rw [hv, habs])
        simp [find_node_rows, hv, hvn]
      · simp [find_node_rows, hv, ih]

theorem find_add_row_to_nodes (i v : Nat) :
    ∀ (nodes : List Nat) (dns : List DataNodeRows), nodes.Nodup →
      find_node_rows (add_row_to_nodes dns i nodes) v =
        if v ∈ nodes then some ((find_node_rows dns v).getD [] ++ [i])
        else find_node_rows dns v := by
  intro nodes
  induction nodes with
  | nil =>
    intro dns _
    simp [add_row_to_nodes]
  | cons n ns ih =>
    intro dns hnd
    have hnin : n ∉ ns := (List.nodup_cons.mp hnd).1
    have hnd2 : ns.Nodup := (List.nodup_cons.mp hnd).2
    have hstep : add_row_to_nodes dns i (n :: ns) =
        add_row_to_nodes (add_row_to_node dns i n) i ns := rfl
    rw [hstep, ih _ hnd2]
    by_cases hvns : v ∈ ns
    · have hvn : ¬v = n := fun habs => hnin (habs ▸ hvns)
      rw [if_pos hvns, find_add_row_to_node, if_neg hvn,
        if_pos (List.mem_cons.mpr (Or.inr hvns))]
    · by_cases hvn : v = n
      · rw [if_neg hvns, find_add_row_to_node, if_pos hvn,
          if_pos (List.mem_cons.mpr (Or.inl hvn))]
      · rw [if_neg hvns, find_add_row_to_node, if_neg hvn,
          if_neg (by simp [hvn, hvns])]

/-- Combination of an existing index list with newly routed indices. -/
def merge_idx (o : Option (List Nat)) (l : List Nat) : Option (List Nat) :=
  if l = [] then o else some (o.getD [] ++ l)

theorem find_route_batch_rows (v : Nat) :
    ∀ (dests : List (List Nat)) (i : Nat) (dns : List DataNodeRows),
      (∀ ds ∈ dests, ds.Nodup) →
      find_node_rows (route_batch_rows dests i dns) v =
        merge_idx (find_node_rows dns v) (dest_indices dests i v) := by
  intro dests
  induction dests with
  | nil =>
    intro i dns _
    simp [route_batch_rows, dest_indices, merge_idx]
  | cons ds rest ih =>
    intro i dns hnd
    have hnd1 : ds.Nodup := hnd ds (List.mem_cons_self _ _)
    have hnd2 : ∀ d ∈ rest, d.Nodup := fun d hd => hnd d (List.mem_cons_of_mem _ hd)
    simp only [route_batch_rows, dest_indices]
    rw [ih (i + 1) _ hnd2, find_add_row_to_nodes i v ds dns hnd1]
    by_cases hv : v ∈ ds
    · rw [if_pos hv, if_pos hv]
      by_cases hrest : dest_indices rest (i + 1) v = []
      · rw [hrest]
        simp [merge_idx]
      · simp [merge_idx, hrest, List.append_assoc]
    · rw [if_neg hv, if_neg hv]
      simp

theorem mem_oids_add_row_to_node (x i node : Nat) :
    ∀ dns : List DataNodeRows,
      x ∈ (add_row_to_node dns i node).map (fun d => d.server_oid) →
        x ∈ dns.map (fun d => d.server_oid) ∨ x = node := by
  intro dns
  induction dns with
  | nil =>
    intro h
    simp [add_row_to_node] at h
    exact Or.inr h
  | cons dn rest ih =>
    intro h
    simp only [add_row_to_node] at h
    split at h
    · simp only [List.map_cons, List.mem_cons] at h
      rcases h with h1 | h2
      · exact Or.inl (by simp [h1])
      · exact Or.inl (by simp [h2])
    · simp only [List.map_cons, List.mem_cons] at h
      rcases h with h1 | h2
      · exact Or.inl (by simp [h1])
      · rcases ih h2 with h3 | h3
        · exact Or.inl (by simp [h3])
        · exact Or.inr h3

theorem add_row_to_node_oids_nodup (i node : Nat) :
    ∀ dns : List DataNodeRows, (dns.map (fun d => d.server_oid)).Nodup →
      ((add_row_to_node dns i node).map (fun d => d.server_oid)).Nodup := by
  intro dns
  induction dns with
  | nil =>
    intro _
    simp [add_row_to_node]
  | cons dn rest ih =>
    intro h
    simp only [List.map_cons, List.nodup_cons] at h
    simp only [add_row_to_node]
    split
    · simp only [List.map_cons, List.nodup_cons]
      exact h
    · rename_i hne
      simp only [List.map_cons, List.nodup_cons]
      refine ⟨?_, ih h.2⟩
      intro habs
      rcases mem_oids_add_row_to_node _ i node rest habs with h3 | h3
      · exact h.1 h3
      · exact hne h3

theorem add_row_to_nodes_oids_nodup (i : Nat) :
    ∀ (nodes : List Nat) (dns : List DataNodeRows),
      (dns.map (fun d => d.server_oid)).Nodup →
      ((add_row_to_nodes dns i nodes).map (fun d => d.server_oid)).Nodup := by
  intro nodes
  induction nodes with
  | nil =>
    intro dns h
    exact h
  | cons n ns ih =>
    intro dns h
    exact ih (add_row_to_node dns i n) (add_row_to_node_oids_nodup i n dns h)

theorem route_batch_rows_oids_nodup :
    ∀ (dests : List (List Nat)) (i : Nat) (dns : List DataNodeRows),
      (dns.map (fun d => d.server_oid)).Nodup →
      ((route_batch_rows dests i dns).map (fun d => d.server_oid)).Nodup := by
  intro dests
  induction dests with
  | nil =>
    intro i dns h
    exact h
  | cons ds rest ih =>
    intro i dns h
    exact ih (i + 1) _ (add_row_to_nodes_oids_nodup i ds dns h)

theorem find_node_rows_of_mem :
    ∀ dns : List DataNodeRows, (dns.map (fun d => d.server_oid)).Nodup →
      ∀ dn ∈ dns, find_node_rows dns dn.server_oid = some dn.row_indices := by
  intro dns
  induction dns with
  | nil =>
    intro _ dn hdn
    simp at hdn
  | cons d rest ih =>
    intro h dn hdn
    simp only [List.map_cons, List.nodup_cons] at h
    rcases List.mem_cons.mp hdn with rfl | hdn2
    · simp [find_node_rows]
    · have hne : ¬d.server_oid = dn.server_oid := by
        intro habs
        exact h.1 (habs ▸ List.mem_map_of_mem (fun d => d.server_oid) hdn2)
      simp only [find_node_rows, if_neg hne]
      exact ih h.2 dn hdn2

theorem getD_append_cons_length {α : Type} (r d : α) (rest : List α) :
    ∀ pre : List α, (pre ++ r :: rest).getD pre.length d = r := by
  intro pre
  induction pre with
  | nil => rfl
  | cons x xs ih => exact ih

theorem dest_indices_map_getD (v : Nat) :
    ∀ (dests rows pre : List (List Nat)),
      rows.length = dests.length →
      (dest_indices dests pre.length v).map (fun j => (pre ++ rows).getD j []) =
        ((rows.zip dests).filter (fun p => decide (v ∈ p.2))).map Prod.fst := by
  intro dests
  induction dests with
  | nil =>
    intro rows pre hlen
    have hrows : rows = [] := List.length_eq_zero.mp hlen
    subst hrows
    simp [dest_indices]
  | cons ds drest ih =>
    intro rows pre hlen
    cases rows with
    | nil => simp at hlen
    | cons r rrest =>
      have hlen2 : rrest.length = drest.length := by simpa using hlen
      have hnext : (dest_indices drest (pre.length + 1) v).map
          (fun j => (pre ++ r :: rrest).getD j []) =
          ((rrest.zip drest).filter (fun p => decide (v ∈ p.2))).map Prod.fst := by
        have hpre : (pre ++ [r]).length = pre.length + 1 := by simp
        have hih := ih rrest (pre ++ [r]) hlen2
        rw [hpre] at hih
        simpa [List.append_assoc] using hih
      simp only [dest_indices, List.map_append]
      by_cases hv : v ∈ ds
      · rw [if_pos hv]
        simp only [List.map_cons, List.map_nil]
        rw [getD_append_cons_length, hnext]
        simp [List.zip_cons_cons, List.filter_cons, hv]
      · rw [if_neg hv]
        simp only [List.map_nil, List.nil_append]
        rw [hnext]
        simp [List.zip_cons_cons, List.filter_cons, hv]

/--
C7: in one send pass, the data nodes appear at most once each in the send
loop (their server oids are pairwise distinct, so each node's contribution
is transmitted as one contiguous write), and the buffer pushed to each
node's channel is exactly the concatenation, in source order, of the
encoded bytes of the rows destined for that node — in particular no byte of
a row destined only for other nodes appears in it.  dests gives each batch
row's destination node set (the data nodes of its chunk), parallel to
batch_rows.
-/
theorem C7_send_pass (batch_rows dests : List (List Nat))
    (hnd : ∀ ds ∈ dests, ds.Nodup)
    (hlen : batch_rows.length = dests.length) :
    ((route_batch_rows dests 0 []).map (fun d => d.server_oid)).Nodup ∧
    ∀ p ∈ send_pass batch_rows dests,
      p.2 = (node_rows_in_source_order batch_rows dests p.1).flatten := by
  have hnodup : ((route_batch_rows dests 0 []).map (fun d => d.server_oid)).Nodup :=
    route_batch_rows_oids_nodup dests 0 [] (by simp)
  refine ⟨hnodup, ?_⟩
  intro p hp
  obtain ⟨dn, hdn, hpeq⟩ := List.mem_map.mp hp
  subst hpeq
  have hfind : find_node_rows (route_batch_rows dests 0 []) dn.server_oid =
      some dn.row_indices :=
    find_node_rows_of_mem _ hnodup dn hdn
  rw [find_route_batch_rows dn.server_oid dests 0 [] hnd] at hfind
  have hfind2 : merge_idx none (dest_indices dests 0 dn.server_oid) =
      some dn.row_indices := hfind
  have hidx : dn.row_indices = dest_indices dests 0 dn.server_oid := by
    unfold merge_idx at hfind2
    split at hfind2
    · exact absurd hfind2 (by simp)
    · simpa using hfind2.symm
  show node_copy_buffer batch_rows dn = _
  unfold node_copy_buffer
  rw [hidx]
  have hmap := dest_indices_map_getD dn.server_oid dests batch_rows [] hlen
  simp only [List.nil_append, List.length_nil] at hmap
  rw [hmap]
  rfl

/--
C7 witness (Scenario C): a batch of three one-byte rows destined for nodes
0, 1, 0 respectively; node 0's channel receives exactly the concatenation
of its two rows' bytes in source order.
-/
theorem C7_send_pass_witness :
    (((0, [1, 3]) : Nat × List Nat)).2 =
      (node_rows_in_source_order [[1], [2], [3]] [[0], [1], [0]] 0).flatten :=
  (C7_send_pass [[1], [2], [3]] [[0], [1], [0]] (by decide) (by decide)).2
    (0, [1, 3]) (by decide)

/-! ### Partition dimensions (generate_copy_dimensions,
get_copy_dimension_datum, convert_datum_to_dim_idx,
calculate_hyperspace_point_from_fields) -/

/-- The dimension types of the catalog: DIMENSION_TYPE_OPEN (range/time),
DIMENSION_TYPE_CLOSED (hash), DIMENSION_TYPE_ANY. -/
inductive DimensionType
  | dimOpen
  | dimClosed
  | dimAny
  deriving DecidableEq, Repr

/-- The slice of the Dimension catalog record dist_copy.c reads: the
attribute number of the dimension column, the dimension type, the optional
partitioning transform (ts_partitioning_func_apply, abstracted as an
integer function on datums), and the column name used in error messages. -/
structure Dimension where
  column_attno : Nat
  dtype : DimensionType
  partitioning : Option (Int → Int)
  column_name : String

/-- CopyDimensionInfo from dist_copy.c: the dimension, the index of its
column in the copy field list (-1 would mean absent), the configured
default value (palloc0 zero-initializes it and nothing ever assigns it),
and the column type's input function (InputFunctionCall, abstracted as a
text-to-datum function). -/
structure CopyDimensionInfo where
  dim : Dimension
  corresponding_copy_field : Int
  default_value : Int
  io_func : String → Int

/--
generate_copy_dimensions from dist_copy.c: for each dimension in order,
scan attnums for the dimension's column attno; if the column is absent from
the copy attribute list the load errors with the unable-to-use-default
message — for every dimension type, open or closed alike, so
corresponding_copy_field is never set to -1; otherwise the copy field index
and the column's input function are recorded.  in_func maps a column attno
to its type input function (getTypeInputInfo/fmgr_info, external).
-/
def generate_copy_dimensions (in_func : Nat → String → Int) :
    List Dimension → List Nat → Except String (List CopyDimensionInfo)
  | [], _ => Except.ok []
  | d :: rest, attnums =>
    let i := attnums.indexOf d.column_attno
    if i = attnums.length then
      Except.error ("unable to use default value for partitioning column " ++
        d.column_name)
    else
      match generate_copy_dimensions in_func rest attnums with
      | Except.error e => Except.error e
      | Except.ok infos =>
        Except.ok ({ dim := d,
                     corresponding_copy_field := (i : Int),
                     default_value := 0,
                     io_func := in_func d.column_attno } :: infos)

/--
get_copy_dimension_datum from dist_copy.c: when the dimension has a copy
field, a NULL field value raises the not-null violation for open (time)
dimensions but silently yields datum 0 for any other dimension type,
without calling the input function; a present value goes through the type
input function.  Without a copy field (corresponding_copy_field = -1, never
produced by generate_copy_dimensions) the zero-initialized default_value is
returned.
-/
def get_copy_dimension_datum (fields : List (Option String))
    (info : CopyDimensionInfo) : Except String Int :=
  if info.corresponding_copy_field ≠ -1 then
    match fields.getD info.corresponding_copy_field.toNat none with
    | none =>
      if info.dim.dtype = DimensionType.dimOpen then
        Except.error ("NULL value in column " ++ info.dim.column_name ++
          " violates not-null constraint")
      else
        Except.ok 0
    | some s => Except.ok (info.io_func s)
  else
    Except.ok info.default_value

/-- DatumGetInt32: truncation of a datum to its signed 32-bit value. -/
def datumGetInt32 (z : Int) : Int := (z + 2 ^ 31) % 2 ^ 32 - 2 ^ 31

/--
convert_datum_to_dim_idx from dist_copy.c: apply the dimension's
partitioning function if configured, then convert — open dimensions through
ts_time_value_to_internal (abstracted as tti), closed dimensions through
DatumGetInt32; any other dimension type is an internal error.
-/
def convert_datum_to_dim_idx (tti : Int → Int) (datum : Int) (d : Dimension) :
    Except String Int :=
  let datum2 :=
    match d.partitioning with
    | some f => f datum
    | none => datum
  match d.dtype with
  | DimensionType.dimOpen => Except.ok (tti datum2)
  | DimensionType.dimClosed => Except.ok (datumGetInt32 datum2)
  | DimensionType.dimAny =>
    Except.error ("invalid dimension type when inserting tuple")

/-- calculate_hyperspace_point_from_fields from dist_copy.c: one coordinate
per dimension, each from the row's field through
get_copy_dimension_datum and convert_datum_to_dim_idx. -/
def calculate_hyperspace_point_from_fields (tti : Int → Int)
    (fields : List (Option String)) :
    List CopyDimensionInfo → Except String (List Int)
  | [] => Except.ok []
  | info :: rest =>
    match get_copy_dimension_datum fields info with
    | Except.error e => Except.error e
    | Except.ok datum =>
      match convert_datum_to_dim_idx tti datum info.dim with
      | Except.error e => Except.error e
      | Except.ok coord =>
        match calculate_hyperspace_point_from_fields tti fields rest with
        | Except.error e => Except.error e
        | Except.ok coords => Except.ok (coord :: coords)

/--
C8 (amended): a configured partition dimension whose column is absent from
the copy attribute list makes generate_copy_dimensions — run by
remote_copy_begin before any row is read or sent — raise the validation
error, for open and closed dimensions alike: generate_copy_dimensions
errors exactly when some dimension's column is missing from attnums, with
no dependence on the dimension type, and no default value is ever used.
(The original claim, that a closed dimension without an input column falls
back to a configured default, fails: the default path of
get_copy_dimension_datum is unreachable because generate_copy_dimensions
never assigns corresponding_copy_field = -1 and errors first.)
-/
theorem C8_missing_dimension_column (in_func : Nat → String → Int)
    (dims : List Dimension) (attnums : List Nat) :
    (∃ e, generate_copy_dimensions in_func dims attnums = Except.error e) ↔
      ∃ d ∈ dims, d.column_attno ∉ attnums := by
  induction dims with
  | nil =>
    simp [generate_copy_dimensions]
  | cons d rest ih =>
    simp only [generate_copy_dimensions]
    by_cases hmem : d.column_attno ∈ attnums
    · have hidx : ¬attnums.indexOf d.column_attno = attnums.length :=
        fun habs => (List.indexOf_eq_length.mp habs) hmem
      rw [if_neg hidx]
      cases hrec : generate_copy_dimensions in_func rest attnums with
      | error e =>
        constructor
        · intro _
          obtain ⟨d2, hd2, hd2n⟩ := ih.mp ⟨e, hrec⟩
          exact ⟨d2, List.mem_cons_of_mem _ hd2, hd2n⟩
        · intro _
          exact ⟨e, rfl⟩
      | ok infos =>
        constructor
        · intro ⟨e, he⟩
          exact absurd he (by simp)
        · intro ⟨d2, hd2, hd2n⟩
          rcases List.mem_cons.mp hd2 with rfl | hd2r
          · exact absurd hmem hd2n
          · obtain ⟨e, he⟩ := ih.mpr ⟨d2, hd2r, hd2n⟩
            rw [hrec] at he
            exact absurd he (by simp)
    · have hidx : attnums.indexOf d.column_attno = attnums.length :=
        List.indexOf_eq_length.mpr hmem
      rw [if_pos hidx]
      constructor
      · intro _
        exact ⟨d, List.mem_cons_self _ _, hmem⟩
      · intro _
        exact ⟨"unable to use default value for partitioning column " ++
          d.column_name, rfl⟩

/--
C8 witness: a closed (hash) dimension on column 5 with attnums covering
only columns 1 and 2 makes generate_copy_dimensions error.
-/
theorem C8_missing_dimension_column_witness :
    ∃ e, generate_copy_dimensions (fun _ _ => 0)
      [⟨5, DimensionType.dimClosed, none, "device"⟩] [1, 2] =
        Except.error e :=
  (C8_missing_dimension_column (fun _ _ => 0)
    [⟨5, DimensionType.dimClosed, none, "device"⟩] [1, 2]).mpr
    ⟨⟨5, DimensionType.dimClosed, none, "device"⟩, List.mem_cons_self _ _,
      by decide⟩

/--
C8 counterexample: for a closed (hash) dimension whose column is absent
from the copy attribute list, generate_copy_dimensions raises the
validation error instead of falling back to a configured default — the
claimed no-error default path for closed dimensions does not exist.
-/
theorem C8_counterexample :
    generate_copy_dimensions (fun _ _ => 0)
      [⟨5, DimensionType.dimClosed, none, "device"⟩] [1, 2] =
      Except.error ("unable to use default value for partitioning column device") :=
  rfl

theorem datumGetInt32_zero : datumGetInt32 0 = 0 := by decide

/--
C10 (amended): a NULL value in the input field of a closed (hash)
partition dimension is not rejected — the dimension datum silently becomes
0 without the type input function ever being called (the result is ok 0
whatever the input function is); the resulting coordinate is DatumGetInt32
of the partitioning transform applied to datum 0 when a transform is
configured, and 0 only when no transform is configured; only open (time)
dimensions reject NULL with the not-null-violation error.  (The original
claim that the coordinate is always 0 fails whenever the dimension has a
partitioning transform with transform(0) different from 0 — the usual case
for a hash dimension.)
-/
theorem C10_null_closed_dimension (fields : List (Option String))
    (info : CopyDimensionInfo) (tti : Int → Int) :
    (info.dim.dtype = DimensionType.dimClosed →
      info.corresponding_copy_field ≠ -1 →
      fields.getD info.corresponding_copy_field.toNat none = none →
      get_copy_dimension_datum fields info = Except.ok 0 ∧
      (∀ g, get_copy_dimension_datum fields
        { info with io_func := g } = Except.ok 0) ∧
      convert_datum_to_dim_idx tti 0 info.dim =
        Except.ok (datumGetInt32
          (match info.dim.partitioning with
           | some f => f 0
           | none => 0)) ∧
      (info.dim.partitioning = none →
        convert_datum_to_dim_idx tti 0 info.dim = Except.ok 0)) ∧
    (info.dim.dtype = DimensionType.dimOpen →
      info.corresponding_copy_field ≠ -1 →
      fields.getD info.corresponding_copy_field.toNat none = none →
      get_copy_dimension_datum fields info =
        Except.error ("NULL value in column " ++ info.dim.column_name ++
          " violates not-null constraint")) := by
  constructor
  · intro hclosed hccf hnull
    have hopen : ¬info.dim.dtype = DimensionType.dimOpen := by
      rw [hclosed]
      simp
    refine ⟨?_, ?_, ?_, ?_⟩
    · unfold get_copy_dimension_datum
      rw [if_pos hccf, hnull]
      dsimp only
      rw [if_neg hopen]
    · intro g
      unfold get_copy_dimension_datum
      rw [if_pos hccf, hnull]
      dsimp only
      rw [if_neg hopen]
    · unfold convert_datum_to_dim_idx
      rw [hclosed]
    · intro hpart
      unfold convert_datum_to_dim_idx
      rw [hclosed, hpart]
      dsimp only
      rw [datumGetInt32_zero]
  · intro hopen hccf hnull
    unfold get_copy_dimension_datum
    rw [if_pos hccf, hnull]
    dsimp only
    rw [if_pos hopen]

/--
C10 witness: a closed dimension without a partitioning transform, with a
NULL input field: the datum is 0 with no error, and the coordinate is 0.
-/
theorem C10_null_closed_dimension_witness :
    get_copy_dimension_datum [none]
      { dim := ⟨1, DimensionType.dimClosed, none, "device"⟩,
        corresponding_copy_field := 0,
        default_value := 0,
        io_func := fun _ => 0 } = Except.ok 0 ∧
    convert_datum_to_dim_idx (fun z => z) 0
      (⟨1, DimensionType.dimClosed, none, "device"⟩ : Dimension) =
      Except.ok 0 := by
  have h := C10_null_closed_dimension [none]
    { dim := ⟨1, DimensionType.dimClosed, none, "device"⟩,
      corresponding_copy_field := 0,
      default_value := 0,
      io_func := fun _ => 0 } (fun z => z)
  exact ⟨(h.1 rfl (by decide) rfl).1, (h.1 rfl (by decide) rfl).2.2.2 rfl⟩

/--
C10 counterexample: a closed dimension whose partitioning transform maps
datum 0 to 7: the NULL field still yields datum 0, but the row's coordinate
for the dimension is 7, not 0 — the claim that the coordinate is 0 (routing
to the partition containing hash coordinate 0) fails whenever the
configured transform does not map 0 to 0.
-/
theorem C10_counterexample :
    calculate_hyperspace_point_from_fields (fun z => z) [none]
      [{ dim := ⟨1, DimensionType.dimClosed, some (fun z => z + 7), "device"⟩,
         corresponding_copy_field := 0,
         default_value := 0,
         io_func := fun _ => 0 }] =
      Except.ok [7] ∧ (7 : Int) ≠ 0 :=
  ⟨rfl, by decide⟩
